import Mathlib

/-!
Verification of the relay-rs transaction relay core: the gas-escalation fee
policy (`src/transaction_monitor/gas_escalation.rs`), the block-driven monitor
loop (`src/transaction_monitor/chain_monitor.rs`), and the transaction
repository (`src/transaction_repository/mod.rs`).

Machine integers are modelled as `Nat`.  The Rust code uses the `uint` crate's
`U256`, whose arithmetic operators panic on overflow/underflow.  Two models of
the fee arithmetic are given:

* `increase_by_minimum_checked` / `bump_transaction_checked` — `Option`-valued
  checked semantics, `none` modelling the panic the `uint` crate raises on
  overflowing `*`/`+` and underflowing `-`; this is the faithful model of the
  source's arithmetic, and the fee-policy claims are settled against it;
* `increase_by_minimum` / `bump_transaction` — wrapping (truncating) semantics,
  every operation reduced modulo `2^256`; used only inside the monitor-loop
  embedding, whose claims exercise executions in which no operation leaves the
  256-bit range (there the wrapping, panicking and exact models coincide).
-/

namespace Relay

/-- `2^256`, the number of values of the Rust `U256` type. -/
def U256size : Nat := 2 ^ 256

/-- The EIP-1559 transaction request as the monitor manipulates it: the two fee
fields (`Option` as in `ethers::types::Eip1559TransactionRequest`, absent until
filled) plus the nonce, which stands in for the remaining payload fields that
the fee logic never touches. -/
structure Eip1559TransactionRequest where
  max_fee_per_gas : Option Nat
  max_priority_fee_per_gas : Option Nat
  nonce : Option Nat
deriving Repr, DecidableEq

/-- `increase_by_minimum` from `gas_escalation.rs`, wrapping model:
`let increase = (value * 10) / 100; value + increase + 1`, each `*` and `+`
reduced mod `2^256` (division by the constant 100 cannot overflow). -/
def increase_by_minimum (value : Nat) : Nat :=
  (value + (value * 10 % U256size) / 100 + 1) % U256size

/-- Wrapping `U256` subtraction: `a - b` reduced mod `2^256` (two's-complement
style wraparound when `b > a`); both arguments are `U256` values, i.e. already
below `2^256`. -/
def u256sub (a b : Nat) : Nat :=
  (a + U256size - b) % U256size

/-- `bump_transaction` from `gas_escalation.rs`, wrapping model.  Reads the
previous fees off the transaction (falling back to the estimate when absent,
`unwrap_or`), takes the max of the estimate and the minimally-bumped previous
value for the priority fee and for the base-fee contribution, and writes the
two new fees back into the transaction. -/
def bump_transaction (tx : Eip1559TransactionRequest)
    (estimate_max_fee estimate_max_priority_fee : Nat) : Eip1559TransactionRequest :=
  let prev_max_priority_fee := tx.max_priority_fee_per_gas.getD estimate_max_priority_fee
  let prev_max_fee := tx.max_fee_per_gas.getD estimate_max_fee
  let new_max_priority_fee :=
    max estimate_max_priority_fee (increase_by_minimum prev_max_priority_fee)
  let estimate_base_fee := u256sub estimate_max_fee estimate_max_priority_fee
  let prev_base_fee := u256sub prev_max_fee prev_max_priority_fee
  let new_base_fee := max estimate_base_fee (increase_by_minimum prev_base_fee)
  let new_max_fee := (new_base_fee + new_max_priority_fee) % U256size
  { tx with
      max_fee_per_gas := some new_max_fee
      max_priority_fee_per_gas := some new_max_priority_fee }

/-- Checked `U256` multiplication: `none` models the panic the `uint` crate
raises when the product does not fit in 256 bits. -/
def checkedMul (a b : Nat) : Option Nat :=
  if a * b < U256size then some (a * b) else none

/-- Checked `U256` addition: `none` models the overflow panic. -/
def checkedAdd (a b : Nat) : Option Nat :=
  if a + b < U256size then some (a + b) else none

/-- Checked `U256` subtraction: `none` models the underflow panic. -/
def checkedSub (a b : Nat) : Option Nat :=
  if b ≤ a then some (a - b) else none

/-- `increase_by_minimum`, checked model: each `*` and `+` may panic. -/
def increase_by_minimum_checked (value : Nat) : Option Nat := do
  let product ← checkedMul value 10
  let increase := product / 100
  let s ← checkedAdd value increase
  checkedAdd s 1

/-- `bump_transaction`, checked model, operations in source order: the bumped
priority fee is computed first, then the two subtractions
`estimate_max_fee - estimate_max_priority_fee` and
`prev_max_fee - prev_max_priority_fee`, then the bumped base fee and the final
sum.  A `none` result models a panic anywhere in that chain. -/
def bump_transaction_checked (tx : Eip1559TransactionRequest)
    (estimate_max_fee estimate_max_priority_fee : Nat) :
    Option Eip1559TransactionRequest := do
  let prev_max_priority_fee := tx.max_priority_fee_per_gas.getD estimate_max_priority_fee
  let prev_max_fee := tx.max_fee_per_gas.getD estimate_max_fee
  let bumped_priority ← increase_by_minimum_checked prev_max_priority_fee
  let new_max_priority_fee := max estimate_max_priority_fee bumped_priority
  let estimate_base_fee ← checkedSub estimate_max_fee estimate_max_priority_fee
  let prev_base_fee ← checkedSub prev_max_fee prev_max_priority_fee
  let bumped_base ← increase_by_minimum_checked prev_base_fee
  let new_base_fee := max estimate_base_fee bumped_base
  let new_max_fee ← checkedAdd new_base_fee new_max_priority_fee
  some { tx with
      max_fee_per_gas := some new_max_fee
      max_priority_fee_per_gas := some new_max_priority_fee }

/-- The durable record, `Request` in `transaction_repository/mod.rs`.
Identifiers and hashes are opaque to the core, so `Uuid`, `TxHash` and the
`Chain` tag are modelled as `Nat`. -/
structure Request where
  id : Nat
  tx : Eip1559TransactionRequest
  hash : Nat
  mined : Bool
  chain : Nat
deriving Repr, DecidableEq

/-- `RequestUpdate` from `transaction_repository/mod.rs`: the full content of
one row update — only `id`, `mined` and `hash`; there is no `tx` field. -/
structure RequestUpdate where
  id : Nat
  mined : Bool
  hash : Nat
deriving Repr, DecidableEq

/-- The `requests` table, one `Request` per row. -/
abbrev Db := List Request

/-- `get_pending` row selection: `WHERE mined = false and chain = ?`. -/
def get_pending (chain : Nat) (db : Db) : List Request :=
  db.filter (fun r => !r.mined && r.chain == chain)

/-- One `UPDATE requests SET hash = ?, mined = ? WHERE id = ?` statement:
every row whose `id` matches gets the new `hash` and `mined`; no other column
is written. -/
def applyUpdate (db : Db) (u : RequestUpdate) : Db :=
  db.map (fun r => if r.id == u.id then { r with hash := u.hash, mined := u.mined } else r)

/-- The sequential effect of a list of update statements. -/
def applyUpdates (db : Db) (us : List RequestUpdate) : Db :=
  us.foldl applyUpdate db

/-- `save` from `DbTxRequestRepository`: a single `INSERT` of the new row; the
primary key on `id` makes the insert fail (without touching the table) when a
row with that `id` already exists. -/
def save (db : Db) (id : Nat) (hash : Nat) (tx : Eip1559TransactionRequest)
    (mined : Bool) (chain : Nat) : Except String Db :=
  if db.any (fun r => r.id == id) then .error "duplicate id"
  else .ok (db ++ [⟨id, tx, hash, mined, chain⟩])

/-- The store operations `DbTxRequestRepository::update_many` issues:
transaction begin, one `UPDATE` per entry, commit. -/
inductive StoreOp where
  | beginTx
  | execUpdate (u : RequestUpdate)
  | commitTx
deriving Repr, DecidableEq

/-- The operation trace of `update_many`: nothing at all for an empty batch
(`if !updates.is_empty()`), otherwise a single `begin`/`commit` pair wrapping
one `UPDATE` statement per entry, in order. -/
def update_many_ops (updates : List RequestUpdate) : List StoreOp :=
  if updates.isEmpty then []
  else StoreOp.beginTx :: updates.map StoreOp.execUpdate ++ [StoreOp.commitTx]

/-- State of the modelled SQL store: the committed table plus the working copy
of an open transaction, if any. -/
structure StoreState where
  committed : Db
  txBuffer : Option Db

/-- Semantics of the store on a trace of operations.  `execOk` and `commitOk`
say which statements the store accepts (modelling driver/server failures).
Inside a transaction, statements act on the working copy and `commit` installs
it; a refused statement or commit aborts the run with the transaction rolled
back, leaving the committed table as it was.  Returns
`(run succeeded?, committed table afterwards)`. -/
def runStoreOps (execOk : RequestUpdate → Bool) (commitOk : Bool) :
    List StoreOp → StoreState → Bool × Db
  | [], s => (true, s.committed)
  | StoreOp.beginTx :: rest, s =>
      runStoreOps execOk commitOk rest ⟨s.committed, some s.committed⟩
  | StoreOp.execUpdate u :: rest, s =>
      if execOk u then
        match s.txBuffer with
        | some buf => runStoreOps execOk commitOk rest ⟨s.committed, some (applyUpdate buf u)⟩
        | none => runStoreOps execOk commitOk rest ⟨applyUpdate s.committed u, none⟩
      else (false, s.committed)
  | StoreOp.commitTx :: rest, s =>
      if commitOk then
        match s.txBuffer with
        | some buf => runStoreOps execOk commitOk rest ⟨buf, none⟩
        | none => runStoreOps execOk commitOk rest s
      else (false, s.committed)

/-- Outcome of one `send_transaction` call. -/
inductive SendResult where
  | ok (hash : Nat)
  | err (msg : String)

/-- Substring search (`str::contains`): does `pattern` occur contiguously in
the text? -/
def containsSub (pattern : List Char) : List Char → Bool
  | [] => pattern.isEmpty
  | c :: rest => pattern.isPrefixOf (c :: rest) || containsSub pattern rest

/-- `err.to_string().contains("nonce too low")`: the benign-error test in
`ChainMonitor::rebroadcast`. -/
def containsNonceTooLow (msg : String) : Bool :=
  containsSub "nonce too low".toList msg.toList

/-- `ChainMonitor::rebroadcast`: bump the transaction's fees, send it, and
translate the outcome — a fresh hash on success, `none` for the benign
"nonce too low" error, and everything else propagated as an error.  The
provider's behaviour is the function `send`. -/
def rebroadcast (send : Eip1559TransactionRequest → SendResult)
    (tx : Eip1559TransactionRequest)
    (estimate_max_fee estimate_max_priority_fee : Nat) :
    Except String (Option Nat × Eip1559TransactionRequest) :=
  let tx' := bump_transaction tx estimate_max_fee estimate_max_priority_fee
  match send tx' with
  | .ok h => .ok (some h, tx')
  | .err msg =>
      if containsNonceTooLow msg then .ok (none, tx') else .error msg

/-- How a tick of `ChainMonitor::monitor` can fail: a division-by-zero panic
from `block_count % block_frequency` with `block_frequency = 0`, or an error
propagated with `?` (RPC, store, or non-benign broadcast failure). -/
inductive LoopErr where
  | panicDivZero
  | rpc (msg : String)
deriving Repr, DecidableEq

/-- The `for request in requests` loop of `ChainMonitor::monitor`, returning
the accumulated `updates` batch.  Per request: the inclusion check against the
block body first; then the escalation gate `block_count % block_frequency != 0`
(whose modulus panics when `block_frequency = 0`); then the re-broadcast, whose
three outcomes append a replacement update, append a mined update, or abort the
whole tick. -/
def processRequests (send : Eip1559TransactionRequest → SendResult)
    (blockTxs : List Nat) (estimate_max_fee estimate_max_priority_fee : Nat)
    (block_count block_frequency : Nat) :
    List Request → Except LoopErr (List RequestUpdate)
  | [] => .ok []
  | request :: rest =>
    if blockTxs.any (fun t => t == request.hash) then
      (processRequests send blockTxs estimate_max_fee estimate_max_priority_fee
          block_count block_frequency rest).map
        (fun ups => ⟨request.id, true, request.hash⟩ :: ups)
    else if block_frequency == 0 then .error .panicDivZero
    else if block_count % block_frequency != 0 then
      processRequests send blockTxs estimate_max_fee estimate_max_priority_fee
        block_count block_frequency rest
    else
      match rebroadcast send request.tx estimate_max_fee estimate_max_priority_fee with
      | .ok (some new_hash, _) =>
          (processRequests send blockTxs estimate_max_fee estimate_max_priority_fee
              block_count block_frequency rest).map
            (fun ups => ⟨request.id, false, new_hash⟩ :: ups)
      | .ok (none, _) =>
          (processRequests send blockTxs estimate_max_fee estimate_max_priority_fee
              block_count block_frequency rest).map
            (fun ups => ⟨request.id, true, request.hash⟩ :: ups)
      | .error msg => .error (.rpc msg)

/-- The environment one delivered block notification finds: the outcome of
`get_block_with_txs` (the hashes in the block body), of
`estimate_eip1559_fees`, whether the `get_pending` read succeeds, the
provider's response to each broadcast, and which statements of the closing
`update_many` the store accepts. -/
structure BlockEvent where
  blockResult : Except String (List Nat)
  feesResult : Except String (Nat × Nat)
  pendingErr : Option String
  send : Eip1559TransactionRequest → SendResult
  execOk : RequestUpdate → Bool
  commitOk : Bool

/-- One iteration of the `while let` loop in `ChainMonitor::monitor`: fetch the
block body, fetch the fee estimate, read the pending rows, run the per-request
loop, and persist the batch with `update_many`; every failure leaves the loop
through `?` as an error.  Returns the table after the tick. -/
def monitorTick (ev : BlockEvent) (chain block_count block_frequency : Nat)
    (db : Db) : Except LoopErr Db :=
  match ev.blockResult with
  | .error msg => .error (.rpc msg)
  | .ok blockTxs =>
    match ev.feesResult with
    | .error msg => .error (.rpc msg)
    | .ok (estimate_max_fee, estimate_max_priority_fee) =>
      match ev.pendingErr with
      | some msg => .error (.rpc msg)
      | none =>
        match processRequests ev.send blockTxs estimate_max_fee
            estimate_max_priority_fee block_count block_frequency
            (get_pending chain db) with
        | .error e => .error e
        | .ok updates =>
          match runStoreOps ev.execOk ev.commitOk (update_many_ops updates) ⟨db, none⟩ with
          | (true, db') => .ok db'
          | (false, _) => .error (.rpc "update_many failed")

/-- `ChainMonitor::monitor` over a finite prefix of the block stream:
`block_count` (a `u8`, hence the wraparound at 256) is incremented for each
delivered block, the tick runs, and — exactly as the `?` operators in the loop
body dictate — the first failing tick makes `monitor()` return its error, with
the remaining blocks never processed. -/
def monitorRun (chain block_frequency : Nat) :
    List BlockEvent → Nat → Db → Except LoopErr Db
  | [], _, db => .ok db
  | ev :: rest, block_count, db =>
    let bc := (block_count + 1) % 256
    match monitorTick ev chain bc block_frequency db with
    | .error e => .error e
    | .ok db' => monitorRun chain block_frequency rest bc db'

/-- Modelled from the spec: the monitor loop the specification describes, where
a failing tick "aborts the current tick, monitor continues on next block" — the
tick's error is swallowed and the table is left unchanged for the next block.
Written only to be compared with `monitorRun`, the loop the source implements. -/
def monitorRunSpec (chain block_frequency : Nat) :
    List BlockEvent → Nat → Db → Db
  | [], _, db => db
  | ev :: rest, block_count, db =>
    let bc := (block_count + 1) % 256
    match monitorTick ev chain bc block_frequency db with
    | .error _ => monitorRunSpec chain block_frequency rest bc db
    | .ok db' => monitorRunSpec chain block_frequency rest bc db'

/-- `RequestRecord` from `transaction_repository/mod.rs`: the raw row, with
`id` and `hash` still text columns and `chain` a raw `u32`; the `tx` column has
already been decoded by the row mapper. -/
structure RequestRecord where
  id : String
  tx : Eip1559TransactionRequest
  hash : String
  mined : Bool
  chain : Nat
deriving Repr, DecidableEq

/-- The three external parsers the record conversion calls —
`Uuid::parse_str`, `TxHash::from_str`, `Chain::try_from` — abstracted as
parameters (`none` = parse failure). -/
structure RecordParsers where
  parseUuid : String → Option Nat
  parseTxHash : String → Option Nat
  parseChain : Nat → Option Nat

/-- `From<RequestRecord> for Request`: each of the three fallible columns is
parsed and `unwrap_or_else(panic!)`-ed, so a failed parse panics (`none`) and
never yields an error value; `tx` and `mined` are carried over as-is. -/
def requestFromRecord (ps : RecordParsers) (record : RequestRecord) : Option Request :=
  match ps.parseUuid record.id, ps.parseTxHash record.hash, ps.parseChain record.chain with
  | some i, some h, some c => some ⟨i, record.tx, h, record.mined, c⟩
  | _, _, _ => none

/-- `DbTxRequestRepository::get`: `fetch_optional` then `map(|r| r.into())`.
The outer `Option` is the panic layer (`none` = the conversion panicked); a
store error from the fetch is passed through as an `Except.error`, and a
missing row as `ok none`. -/
def dbGet (ps : RecordParsers) (fetched : Except String (Option RequestRecord)) :
    Option (Except String (Option Request)) :=
  match fetched with
  | .error e => some (.error e)
  | .ok none => some (.ok none)
  | .ok (some record) =>
    match requestFromRecord ps record with
    | none => none
    | some r => some (.ok (some r))

/-- The record-by-record conversion `get_pending` runs
(`records.iter().map(|record| Request::from(record.clone())).collect()`):
the first record whose conversion panics aborts the whole list (`none`). -/
def recordsToRequests (ps : RecordParsers) : List RequestRecord → Option (List Request)
  | [] => some []
  | record :: rest =>
    match requestFromRecord ps record, recordsToRequests ps rest with
    | some r, some rs => some (r :: rs)
    | _, _ => none

/-- `DbTxRequestRepository::get_pending`: `fetch_all` then `Request::from` on
every record; a failing conversion panics (outer `none`). -/
def dbGetPending (ps : RecordParsers) (fetched : Except String (List RequestRecord)) :
    Option (Except String (List Request)) :=
  match fetched with
  | .error e => some (.error e)
  | .ok records =>
    match recordsToRequests ps records with
    | none => none
    | some rs => some (.ok rs)

/-! ### Arithmetic helper lemmas for the fee policy -/

lemma mul110div100_le (x : Nat) : x * 110 / 100 ≤ 2 * x := by
  have h1 : x * 110 ≤ x * 200 := Nat.mul_le_mul_left x (by norm_num)
  have h2 : x * 110 / 100 ≤ x * 200 / 100 := Nat.div_le_div_right h1
  have h3 : x * 200 / 100 = 2 * x := by
    have hx : x * 200 = 2 * x * 100 := by ring
    rw [hx, Nat.mul_div_cancel _ (by norm_num : (0:Nat) < 100)]
  omega

lemma increase_le (v : Nat) : v * 10 / 100 ≤ v := by
  have h1 : v * 10 / 100 ≤ v * 10 / 10 :=
    Nat.div_le_div_left (by norm_num) (by norm_num)
  have h2 : v * 10 / 10 = v := Nat.mul_div_cancel v (by norm_num)
  omega

/-! ### The checked model: panic behaviour of the fee arithmetic -/

lemma add_tenth_eq (v : Nat) : v + v * 10 / 100 = v * 110 / 100 := by
  have hsplit : v * 110 = v * 10 + v * 100 := by ring
  rw [hsplit, Nat.add_mul_div_right _ _ (by norm_num : (0:Nat) < 100)]
  omega

/-- Below `2^252` no operation of the checked `increase_by_minimum` panics. -/
lemma increase_by_minimum_checked_small (v : Nat) (hv : v ≤ 2 ^ 252) :
    increase_by_minimum_checked v = some (v * 110 / 100 + 1) := by
  have h10 : v * 10 < U256size := by
    have : v * 10 ≤ 2 ^ 252 * 10 := Nat.mul_le_mul_right 10 hv
    have hlt : 2 ^ 252 * 10 < U256size := by norm_num [U256size]
    omega
  have hdiv : v * 10 / 100 ≤ v := increase_le v
  have hsum : v + v * 10 / 100 < U256size := by
    have : (2:Nat) ^ 252 + 2 ^ 252 < U256size := by norm_num [U256size]
    omega
  have hsum1 : v + v * 10 / 100 + 1 < U256size := by
    have : (2:Nat) ^ 252 + 2 ^ 252 + 1 < U256size := by norm_num [U256size]
    omega
  unfold increase_by_minimum_checked checkedMul checkedAdd
  simp only [bind, if_pos h10, Option.some_bind, if_pos hsum, if_pos hsum1,
    Option.some.injEq]
  rw [add_tenth_eq]

/-- Below `2^252` the checked bump panics nowhere and returns the same result
as the wrapping model. -/
lemma bump_transaction_checked_small (pf pp ef ep : Nat) (nn : Option Nat)
    (hpf : pf ≤ 2 ^ 252) (hef : ef ≤ 2 ^ 252) (hp : pp ≤ pf) (he : ep ≤ ef) :
    bump_transaction_checked ⟨some pf, some pp, nn⟩ ef ep =
      some ⟨some (max (ef - ep) ((pf - pp) * 110 / 100 + 1) + max ep (pp * 110 / 100 + 1)),
            some (max ep (pp * 110 / 100 + 1)), nn⟩ := by
  have hpp : pp ≤ 2 ^ 252 := le_trans hp hpf
  have hbase : pf - pp ≤ 2 ^ 252 := le_trans (Nat.sub_le _ _) hpf
  have hnp : max ep (pp * 110 / 100 + 1) ≤ 2 ^ 253 + 1 := by
    have h1 : pp * 110 / 100 ≤ 2 * pp := mul110div100_le pp
    have h2 : ep ≤ 2 ^ 252 := le_trans he hef
    have h3 : (2:Nat) ^ 252 ≤ 2 ^ 253 := by norm_num
    exact max_le (by omega) (by omega)
  have hnb : max (ef - ep) ((pf - pp) * 110 / 100 + 1) ≤ 2 ^ 253 + 1 := by
    have h1 : (pf - pp) * 110 / 100 ≤ 2 * (pf - pp) := mul110div100_le (pf - pp)
    have h3 : (2:Nat) ^ 252 ≤ 2 ^ 253 := by norm_num
    have h5 : ef - ep ≤ 2 ^ 252 := le_trans (Nat.sub_le _ _) hef
    exact max_le (by omega) (by omega)
  have hfinal :
      max (ef - ep) ((pf - pp) * 110 / 100 + 1) + max ep (pp * 110 / 100 + 1)
        < U256size := by
    have : (2:Nat) ^ 253 + 1 + (2 ^ 253 + 1) < U256size := by norm_num [U256size]
    omega
  unfold bump_transaction_checked
  simp only [Option.getD, bind, Option.bind]
  rw [increase_by_minimum_checked_small pp hpp]
  simp only [checkedSub, if_pos he, if_pos hp]
  rw [increase_by_minimum_checked_small (pf - pp) hbase]
  simp only [checkedAdd, if_pos hfinal]

/-- C1, counterexample.  The claim quantifies over all 256-bit inputs with
`prev_max_fee ≥ prev_max_priority_fee` and `est_max_fee ≥ est_max_priority_fee`
and asserts the bump returns `(new_max_fee, new_max_priority_fee)` satisfying
the three bounds.  At `prev = (0, 0)`, `est = (2^256 - 1, 2^256 - 1)` — which
satisfies both preconditions — the bump does not return at all: the final
addition `new_base_fee + new_max_priority_fee = 1 + (2^256 - 1)` overflows
256 bits, and the `uint` crate's `+` panics there (`none` in the checked
model), so no pair satisfying the claimed bounds is produced. -/
theorem C1_fee_bump_counterexample :
    (0:Nat) ≤ 0 ∧ U256size - 1 ≤ U256size - 1 ∧
    bump_transaction_checked ⟨some 0, some 0, none⟩ (U256size - 1) (U256size - 1)
      = none := by
  refine ⟨le_refl _, le_refl _, ?_⟩
  decide

/-- C1, amended: the bump-function guarantees hold once the inputs are also
small enough that no 256-bit operation overflows — below `2^252` —: then the
bump on a transaction carrying `(prev_max_fee, prev_max_priority_fee)` with
estimate `(est_max_fee, est_max_priority_fee)` returns (panics nowhere), with
`new_max_fee ≥ new_max_priority_fee`,
`new_max_priority_fee ≥ prev_max_priority_fee * 110/100 + 1`, and
`new_max_fee - new_max_priority_fee ≥
(prev_max_fee - prev_max_priority_fee) * 110/100 + 1`. -/
theorem C1_fee_bump_amended (prev_max_fee prev_max_priority_fee
      est_max_fee est_max_priority_fee : Nat)
    (hpf : prev_max_fee ≤ 2 ^ 252) (hef : est_max_fee ≤ 2 ^ 252)
    (hprev : prev_max_priority_fee ≤ prev_max_fee)
    (hest : est_max_priority_fee ≤ est_max_fee) :
    ∃ tx' nf np,
      bump_transaction_checked ⟨some prev_max_fee, some prev_max_priority_fee, none⟩
          est_max_fee est_max_priority_fee = some tx' ∧
      tx'.max_fee_per_gas = some nf ∧
      tx'.max_priority_fee_per_gas = some np ∧
      np ≤ nf ∧
      prev_max_priority_fee * 110 / 100 + 1 ≤ np ∧
      (prev_max_fee - prev_max_priority_fee) * 110 / 100 + 1 ≤ nf - np := by
  rw [bump_transaction_checked_small _ _ _ _ _ hpf hef hprev hest]
  refine ⟨_, _, _, rfl, rfl, rfl, Nat.le_add_left _ _, le_max_right _ _, ?_⟩
  rw [Nat.add_sub_cancel]
  exact le_max_right _ _

/-- C1, witness for the amended theorem at
`prev = (100, 10)`, `est = (50, 5)`: the bump yields `(112, 12)`. -/
theorem C1_fee_bump_amended_witness :
    ∃ tx' nf np,
      bump_transaction_checked ⟨some 100, some 10, none⟩ 50 5 = some tx' ∧
      tx'.max_fee_per_gas = some nf ∧
      tx'.max_priority_fee_per_gas = some np ∧
      np ≤ nf ∧
      10 * 110 / 100 + 1 ≤ np ∧
      (100 - 10) * 110 / 100 + 1 ≤ nf - np :=
  C1_fee_bump_amended 100 10 50 5 (by norm_num) (by norm_num) (by norm_num) (by norm_num)

/-- C9, counterexample.  The claim asserts that under the precondition
`max_fee ≥ max_priority_fee` (for the previous values and the estimate) the
bump is total and never traps.  At `prev = (2^256 - 1, 2^256 - 1)`,
`est = (0, 0)` — both preconditions hold — the very first checked operation,
`prev_max_priority_fee * 10`, overflows 256 bits, so the `uint` crate's
multiplication panics: the checked model returns `none`. -/
theorem C9_checked_counterexample :
    (U256size - 1 : Nat) ≤ U256size - 1 ∧ (0:Nat) ≤ 0 ∧
    bump_transaction_checked ⟨some (U256size - 1), some (U256size - 1), none⟩ 0 0
      = none :=
  ⟨le_refl _, le_refl _, by decide⟩

/-- C9, amended.  The subtraction claim is right, but totality needs the
inputs bounded: (a) under the fee-ordering preconditions and with all inputs
below `2^252` (so that no multiplication or addition overflows either) the
checked bump returns a value and never traps; (b) whenever a priority fee
exceeds the corresponding max fee, the checked bump traps (`none`), the
subtraction underflow at the latest. -/
theorem C9_trap_behaviour_amended :
    (∀ pf pp ef ep : Nat, pf ≤ 2 ^ 252 → ef ≤ 2 ^ 252 → pp ≤ pf → ep ≤ ef →
      ∃ tx', bump_transaction_checked ⟨some pf, some pp, none⟩ ef ep = some tx') ∧
    (∀ pf pp ef ep : Nat, pf < pp ∨ ef < ep →
      bump_transaction_checked ⟨some pf, some pp, none⟩ ef ep = none) := by
  constructor
  · intro pf pp ef ep hpf hef hp he
    exact ⟨_, bump_transaction_checked_small pf pp ef ep none hpf hef hp he⟩
  · intro pf pp ef ep h
    unfold bump_transaction_checked
    simp only [Option.getD, bind, Option.bind]
    cases hibm : increase_by_minimum_checked pp with
    | none => rfl
    | some b =>
      rcases h with h | h
      · cases hsub : checkedSub ef ep with
        | none => rfl
        | some eb =>
          have hnone : checkedSub pf pp = none := by
            simp [checkedSub, Nat.not_le.mpr h]
          rw [hnone]
      · have hnone : checkedSub ef ep = none := by
          simp [checkedSub, Nat.not_le.mpr h]
        rw [hnone]

/-- C9, witness for the amended theorem: part (a) at `prev = (100, 10)`,
`est = (50, 5)`; part (b) at `prev = (5, 10)` (priority above max). -/
theorem C9_trap_behaviour_amended_witness :
    (∃ tx', bump_transaction_checked ⟨some 100, some 10, none⟩ 50 5 = some tx') ∧
    bump_transaction_checked ⟨some 5, some 10, none⟩ 0 0 = none :=
  ⟨C9_trap_behaviour_amended.1 100 10 50 5 (by norm_num) (by norm_num)
      (by norm_num) (by norm_num),
   C9_trap_behaviour_amended.2 5 10 0 0 (Or.inl (by norm_num))⟩

/-! ### The store-transaction semantics of `update_many` -/

lemma runStoreOps_exec_commit (eo : RequestUpdate → Bool) (co : Bool)
    (us : List RequestUpdate) (committed buf : Db) :
    runStoreOps eo co (us.map StoreOp.execUpdate ++ [StoreOp.commitTx])
        ⟨committed, some buf⟩
      = if us.all eo && co then (true, applyUpdates buf us) else (false, committed) := by
  induction us generalizing buf with
  | nil =>
    cases co <;> simp [runStoreOps, applyUpdates]
  | cons u rest ih =>
    simp only [List.map_cons, List.cons_append, runStoreOps]
    cases h : eo u with
    | true =>
      rw [if_pos rfl]
      simp only [List.append_eq]
      rw [ih (applyUpdate buf u)]
      simp [applyUpdates, h]
    | false =>
      rw [if_neg (by simp)]
      simp [h]

/-- The net effect of `update_many` on the store: nothing for an empty batch;
otherwise all updates applied when every statement and the commit succeed, and
the table exactly as before when anything fails. -/
lemma runStoreOps_update_many (eo : RequestUpdate → Bool) (co : Bool)
    (us : List RequestUpdate) (db : Db) :
    runStoreOps eo co (update_many_ops us) ⟨db, none⟩
      = if us.isEmpty || (us.all eo && co) then (true, applyUpdates db us)
        else (false, db) := by
  cases us with
  | nil => simp [update_many_ops, runStoreOps, applyUpdates]
  | cons u rest =>
    have hne : (u :: rest).isEmpty = false := rfl
    rw [update_many_ops, if_neg (by simp)]
    show runStoreOps eo co (StoreOp.beginTx :: _) _ = _
    rw [runStoreOps]
    simp only [List.append_eq]
    rw [runStoreOps_exec_commit]
    simp [hne]

/-- C5: `update_many` on an empty update list issues zero store operations
(hence zero SQL statements and no transaction) and leaves the store unchanged;
on a non-empty list it issues exactly one `begin`, the updates in order, and
one `commit`, and its effect on the table is atomic — either every update is
applied (success) or none is (any statement or commit failure). -/
theorem C5_update_many_atomic :
    (update_many_ops [] = [] ∧
      ∀ (eo : RequestUpdate → Bool) (co : Bool) (db : Db),
        runStoreOps eo co (update_many_ops []) ⟨db, none⟩ = (true, db)) ∧
    (∀ us : List RequestUpdate, us ≠ [] →
      update_many_ops us
        = StoreOp.beginTx :: us.map StoreOp.execUpdate ++ [StoreOp.commitTx]) ∧
    (∀ (us : List RequestUpdate) (eo : RequestUpdate → Bool) (co : Bool) (db : Db),
      runStoreOps eo co (update_many_ops us) ⟨db, none⟩ = (true, applyUpdates db us)
        ∨ runStoreOps eo co (update_many_ops us) ⟨db, none⟩ = (false, db)) := by
  refine ⟨⟨rfl, fun eo co db => ?_⟩, fun us hus => ?_, fun us eo co db => ?_⟩
  · rw [runStoreOps_update_many]
    simp [applyUpdates]
  · rw [update_many_ops, if_neg (by simpa using hus)]
  · rw [runStoreOps_update_many]
    by_cases h : (us.isEmpty || (us.all eo && co)) = true
    · rw [if_pos h]; exact Or.inl rfl
    · rw [if_neg h]; exact Or.inr rfl

/-- C5, witness: the non-empty clauses at the one-element batch
`[⟨1, true, 2⟩]` with an accepting store, and the empty-batch clause at an
arbitrary table. -/
theorem C5_update_many_atomic_witness :
    update_many_ops [({ id := 1, mined := true, hash := 2 } : RequestUpdate)]
      = StoreOp.beginTx
          :: [({ id := 1, mined := true, hash := 2 } : RequestUpdate)].map StoreOp.execUpdate
          ++ [StoreOp.commitTx] ∧
    (runStoreOps (fun _ => true) true
        (update_many_ops [({ id := 1, mined := true, hash := 2 } : RequestUpdate)]) ⟨[], none⟩
      = (true, applyUpdates [] [({ id := 1, mined := true, hash := 2 } : RequestUpdate)])
      ∨ runStoreOps (fun _ => true) true
          (update_many_ops [({ id := 1, mined := true, hash := 2 } : RequestUpdate)]) ⟨[], none⟩
        = (false, [])) ∧
    runStoreOps (fun _ => true) true (update_many_ops []) ⟨[], none⟩ = (true, []) :=
  ⟨C5_update_many_atomic.2.1 [⟨1, true, 2⟩] (by simp),
   C5_update_many_atomic.2.2 [⟨1, true, 2⟩] (fun _ => true) true [],
   C5_update_many_atomic.1.2 (fun _ => true) true []⟩

/-! ### Structural lemmas about the monitor tick -/

/-- Unfolding of the per-request loop on a non-empty pending list. -/
lemma processRequests_cons (send : Eip1559TransactionRequest → SendResult)
    (bt : List Nat) (ef ep bc bf : Nat) (r : Request) (rest : List Request) :
    processRequests send bt ef ep bc bf (r :: rest)
      = if bt.any (fun t => t == r.hash) then
          (processRequests send bt ef ep bc bf rest).map
            (fun ups => ⟨r.id, true, r.hash⟩ :: ups)
        else if bf == 0 then .error .panicDivZero
        else if bc % bf != 0 then processRequests send bt ef ep bc bf rest
        else
          match rebroadcast send r.tx ef ep with
          | .ok (some new_hash, _) =>
              (processRequests send bt ef ep bc bf rest).map
                (fun ups => ⟨r.id, false, new_hash⟩ :: ups)
          | .ok (none, _) =>
              (processRequests send bt ef ep bc bf rest).map
                (fun ups => ⟨r.id, true, r.hash⟩ :: ups)
          | .error msg => .error (.rpc msg) := rfl

/-- A successful tick decomposes: every RPC and store read succeeded, the
per-request loop produced a batch, and the new table is that batch applied to
the old one. -/
lemma monitorTick_ok_elim {ev : BlockEvent} {chain bc bf : Nat} {db db' : Db}
    (h : monitorTick ev chain bc bf db = .ok db') :
    ∃ blockTxs fees updates,
      ev.blockResult = .ok blockTxs ∧ ev.feesResult = .ok fees ∧
      ev.pendingErr = none ∧
      processRequests ev.send blockTxs fees.1 fees.2 bc bf (get_pending chain db)
        = .ok updates ∧
      db' = applyUpdates db updates := by
  unfold monitorTick at h
  cases hbr : ev.blockResult with
  | error m => rw [hbr] at h; simp at h
  | ok blockTxs =>
    cases hfr : ev.feesResult with
    | error m => rw [hbr, hfr] at h; simp at h
    | ok fees =>
      obtain ⟨ef, ep⟩ := fees
      cases hpe : ev.pendingErr with
      | some m => rw [hbr, hfr, hpe] at h; simp at h
      | none =>
        rw [hbr, hfr, hpe] at h
        simp only [] at h
        cases hpr : processRequests ev.send blockTxs ef ep bc bf (get_pending chain db) with
        | error e => rw [hpr] at h; simp at h
        | ok ups =>
          rw [hpr] at h
          simp only [] at h
          have hd := runStoreOps_update_many ev.execOk ev.commitOk ups db
          rcases hrs : runStoreOps ev.execOk ev.commitOk (update_many_ops ups) ⟨db, none⟩
            with ⟨b, dbx⟩
          rw [hrs] at h hd
          cases b with
          | true =>
            refine ⟨blockTxs, (ef, ep), ups, rfl, rfl, rfl, hpr, ?_⟩
            have hok : dbx = db' := by simpa using h
            split_ifs at hd with hc
            · have : dbx = applyUpdates db ups := by
                simpa using congrArg Prod.snd hd
              rw [← hok, this]
            · exact absurd (congrArg Prod.fst hd) (by simp)
          | false => simp at h

lemma applyUpdate_preserves (db : Db) (u : RequestUpdate) :
    (applyUpdate db u).map (fun r => (r.id, r.tx, r.chain))
      = db.map (fun r => (r.id, r.tx, r.chain)) := by
  unfold applyUpdate
  rw [List.map_map]
  apply List.map_congr_left
  intro r _
  by_cases hid : r.id = u.id <;> simp [hid]

/-- Applying any batch of `(id, mined, hash)` updates never changes a row's
`id`, `tx` or `chain` column. -/
lemma applyUpdates_preserves (us : List RequestUpdate) (db : Db) :
    (applyUpdates db us).map (fun r => (r.id, r.tx, r.chain))
      = db.map (fun r => (r.id, r.tx, r.chain)) := by
  induction us generalizing db with
  | nil => rfl
  | cons u rest ih =>
    show (applyUpdates (applyUpdate db u) rest).map _ = _
    rw [ih (applyUpdate db u), applyUpdate_preserves]

/-- C2, counterexample.  One pending request with stored fees
`(max_fee, max_priority_fee) = (100, 10)`, not included in the block,
re-broadcast successfully as hash `99` under estimate `(50, 5)`: the persisted
row after the tick is `(hash = 99, mined = false)` with the `tx` column — fees
still `(100, 10)` — byte-for-byte unchanged, while the claim requires the
stored priority fee to have grown to at least `10 * 110/100 + 1 = 12`. -/
theorem C2_persisted_fees_counterexample :
    monitorTick
        { blockResult := .ok [], feesResult := .ok (50, 5), pendingErr := none,
          send := fun _ => .ok 99, execOk := fun _ => true, commitOk := true }
        1 1 1 [⟨1, ⟨some 100, some 10, some 7⟩, 5, false, 1⟩]
      = .ok [⟨1, ⟨some 100, some 10, some 7⟩, 99, false, 1⟩] ∧
    ¬ (10 * 110 / 100 + 1 ≤ (10:Nat)) := by
  exact ⟨rfl, by norm_num⟩

/-- C2, amended: a re-broadcast persists only the new hash (with
`mined = false`); the monitor loop never writes the `tx` column at all, so
after any tick every row keeps its `id`, `tx` and `chain` exactly as before —
the bumped fees exist only on the broadcast transaction, not in the store. -/
theorem C2_persisted_tx_amended (ev : BlockEvent) (chain bc bf : Nat)
    (db db' : Db) (h : monitorTick ev chain bc bf db = .ok db') :
    db'.map (fun r => (r.id, r.tx, r.chain)) = db.map (fun r => (r.id, r.tx, r.chain)) := by
  obtain ⟨bt, fees, ups, _, _, _, _, hdb⟩ := monitorTick_ok_elim h
  rw [hdb]
  exact applyUpdates_preserves ups db

/-- C2, witness for the amended theorem at the concrete re-broadcast tick of
the counterexample. -/
theorem C2_persisted_tx_amended_witness :
    ([⟨1, ⟨some 100, some 10, some 7⟩, 99, false, 1⟩] : Db).map
        (fun r => (r.id, r.tx, r.chain))
      = ([⟨1, ⟨some 100, some 10, some 7⟩, 5, false, 1⟩] : Db).map
          (fun r => (r.id, r.tx, r.chain)) :=
  C2_persisted_tx_amended
    { blockResult := .ok [], feesResult := .ok (50, 5), pendingErr := none,
      send := fun _ => .ok 99, execOk := fun _ => true, commitOk := true }
    1 1 1 [⟨1, ⟨some 100, some 10, some 7⟩, 5, false, 1⟩]
    [⟨1, ⟨some 100, some 10, some 7⟩, 99, false, 1⟩] rfl

/-- Inverting one step of the per-request loop: a successful run on
`r :: rest` is a successful run on `rest`, preceded by at most one update,
and that update carries `r`'s id. -/
lemma processRequests_cons_elim {send : Eip1559TransactionRequest → SendResult}
    {bt : List Nat} {ef ep bc bf : Nat} {r : Request} {rest : List Request}
    {ups : List RequestUpdate}
    (h : processRequests send bt ef ep bc bf (r :: rest) = .ok ups) :
    ∃ ups', processRequests send bt ef ep bc bf rest = .ok ups' ∧
      (ups = ups' ∨ ∃ u : RequestUpdate, u.id = r.id ∧ ups = u :: ups') := by
  rw [processRequests_cons] at h
  by_cases h1 : (bt.any fun t => t == r.hash) = true
  case pos =>
    rw [if_pos h1] at h
    cases hrec : processRequests send bt ef ep bc bf rest with
    | error e => rw [hrec] at h; simp [Except.map] at h
    | ok ups' =>
      rw [hrec] at h
      simp only [Except.map, Except.ok.injEq] at h
      exact ⟨ups', rfl, Or.inr ⟨⟨r.id, true, r.hash⟩, rfl, h.symm⟩⟩
  rw [if_neg h1] at h
  by_cases h2 : (bf == 0) = true
  case pos => rw [if_pos h2] at h; simp at h
  rw [if_neg h2] at h
  by_cases h3 : (bc % bf != 0) = true
  case pos =>
    rw [if_pos h3] at h
    exact ⟨ups, h, Or.inl rfl⟩
  rw [if_neg h3] at h
  cases hrb : rebroadcast send r.tx ef ep with
    | error msg => rw [hrb] at h; simp at h
    | ok pr =>
      obtain ⟨onh, tx'⟩ := pr
      rw [hrb] at h
      cases onh with
      | some nh =>
        cases hrec : processRequests send bt ef ep bc bf rest with
        | error e => rw [hrec] at h; simp [Except.map] at h
        | ok ups' =>
          rw [hrec] at h
          simp only [Except.map, Except.ok.injEq] at h
          exact ⟨ups', rfl, Or.inr ⟨⟨r.id, false, nh⟩, rfl, h.symm⟩⟩
      | none =>
        cases hrec : processRequests send bt ef ep bc bf rest with
        | error e => rw [hrec] at h; simp [Except.map] at h
        | ok ups' =>
          rw [hrec] at h
          simp only [Except.map, Except.ok.injEq] at h
          exact ⟨ups', rfl, Or.inr ⟨⟨r.id, true, r.hash⟩, rfl, h.symm⟩⟩

/-- Every id in a batch the loop produces is the id of some pending row. -/
lemma processRequests_ids {send : Eip1559TransactionRequest → SendResult}
    {bt : List Nat} {ef ep bc bf : Nat} :
    ∀ {pending : List Request} {ups : List RequestUpdate},
      processRequests send bt ef ep bc bf pending = .ok ups →
      ∀ u ∈ ups, ∃ p ∈ pending, u.id = p.id := by
  intro pending
  induction pending with
  | nil =>
    intro ups h u hu
    unfold processRequests at h
    obtain rfl : ([] : List RequestUpdate) = ups := by simpa using h
    simp at hu
  | cons r rest ih =>
    intro ups h u hu
    obtain ⟨ups', hrec, hcase⟩ := processRequests_cons_elim h
    rcases hcase with rfl | ⟨w, hwid, rfl⟩
    · obtain ⟨p, hp, hid⟩ := ih hrec u hu
      exact ⟨p, List.mem_cons_of_mem _ hp, hid⟩
    · rcases List.mem_cons.mp hu with rfl | hu'
      · exact ⟨r, List.mem_cons_self _ _, hwid⟩
      · obtain ⟨p, hp, hid⟩ := ih hrec u hu'
        exact ⟨p, List.mem_cons_of_mem _ hp, hid⟩

/-- A row none of the updates targets survives the batch untouched. -/
lemma applyUpdates_skip {us : List RequestUpdate} {r : Request}
    (hr : ∀ u ∈ us, u.id ≠ r.id) :
    ∀ {db : Db}, r ∈ db → r ∈ applyUpdates db us := by
  induction us with
  | nil => intro db hmem; exact hmem
  | cons u rest ih =>
    intro db hmem
    show r ∈ applyUpdates (applyUpdate db u) rest
    have hne : r.id ≠ u.id := fun hh => hr u (List.mem_cons_self _ _) hh.symm
    have hmem' : r ∈ applyUpdate db u := by
      have := List.mem_map_of_mem
        (fun x : Request =>
          if x.id == u.id then { x with hash := u.hash, mined := u.mined } else x) hmem
      simpa [applyUpdate, if_neg (by simpa using hne)] using this
    exact ih (fun v hv => hr v (List.mem_cons_of_mem _ hv)) hmem'

/-- C6: `mined = true` is absorbing.  (a) If the table's ids are unique (the
primary key), a row already mined is untouched by any successful monitor tick:
the update batch is built from `get_pending`, which only returns non-mined
rows, so no update targets a mined row's id.  (b) `save` (the only write
`submit` performs) never modifies an existing row.  In particular `mined`
never transitions back from `true` to `false`. -/
theorem C6_mined_terminal :
    (∀ (ev : BlockEvent) (chain bc bf : Nat) (db db' : Db) (r : Request),
      (db.map (fun x => x.id)).Nodup →
      monitorTick ev chain bc bf db = .ok db' →
      r ∈ db → r.mined = true → r ∈ db') ∧
    (∀ (db : Db) (id hash : Nat) (tx : Eip1559TransactionRequest) (mined : Bool)
        (chain : Nat) (db' : Db),
      save db id hash tx mined chain = .ok db' → ∀ r ∈ db, r ∈ db') := by
  constructor
  · intro ev chain bc bf db db' r hnodup htick hmem hmined
    obtain ⟨bt, fees, ups, _, _, _, hpr, hdb⟩ := monitorTick_ok_elim htick
    rw [hdb]
    refine applyUpdates_skip (fun u hu => ?_) hmem
    obtain ⟨p, hp, hid⟩ := processRequests_ids hpr u hu
    have hpdb : p ∈ db ∧ (!p.mined && p.chain == chain) = true := by
      simpa [get_pending] using List.mem_filter.mp hp
    intro hur
    have hpr2 : p = r :=
      List.inj_on_of_nodup_map hnodup hpdb.1 hmem (hid.symm.trans hur)
    have : p.mined = false := by
      rcases hpdb.2 with h2
      simp only [Bool.and_eq_true, Bool.not_eq_true'] at h2
      exact h2.1
    rw [hpr2, hmined] at this
    simp at this
  · intro db id hash tx mined chain db' hsave r hmem
    unfold save at hsave
    by_cases hdup : (db.any fun x => x.id == id) = true
    case pos => rw [if_pos hdup] at hsave; simp at hsave
    rw [if_neg hdup] at hsave
    obtain rfl : db ++ [⟨id, tx, hash, mined, chain⟩] = db' := by
      simpa using hsave
    exact List.mem_append_left _ hmem

/-- C6, witness: (a) at a one-row table holding a mined record, over a tick
that finds nothing pending; (b) inserting a fresh id next to that record. -/
theorem C6_mined_terminal_witness :
    (⟨1, ⟨some 100, some 10, some 7⟩, 5, true, 1⟩ : Request)
        ∈ ([⟨1, ⟨some 100, some 10, some 7⟩, 5, true, 1⟩] : Db) ∧
    (⟨1, ⟨some 100, some 10, some 7⟩, 5, true, 1⟩ : Request)
        ∈ ([⟨1, ⟨some 100, some 10, some 7⟩, 5, true, 1⟩,
            ⟨2, ⟨some 1, some 1, none⟩, 9, false, 1⟩] : Db) :=
  ⟨C6_mined_terminal.1
      { blockResult := .ok [], feesResult := .ok (50, 5), pendingErr := none,
        send := fun _ => .ok 99, execOk := fun _ => true, commitOk := true }
      1 1 1 [⟨1, ⟨some 100, some 10, some 7⟩, 5, true, 1⟩]
      [⟨1, ⟨some 100, some 10, some 7⟩, 5, true, 1⟩]
      ⟨1, ⟨some 100, some 10, some 7⟩, 5, true, 1⟩
      (by simp) rfl (by simp) rfl,
   C6_mined_terminal.2 [⟨1, ⟨some 100, some 10, some 7⟩, 5, true, 1⟩]
      2 9 ⟨some 1, some 1, none⟩ false 1
      [⟨1, ⟨some 100, some 10, some 7⟩, 5, true, 1⟩,
       ⟨2, ⟨some 1, some 1, none⟩, 9, false, 1⟩]
      rfl
      ⟨1, ⟨some 100, some 10, some 7⟩, 5, true, 1⟩ (by simp)⟩

/-- C4: the inclusion check runs on every delivered block.  (a) Whenever the
per-request loop completes, every pending request whose hash occurs in the
block body has `(id, mined = true, hash unchanged)` in the update batch — with
no constraint whatsoever on `block_count % block_frequency`.  (b) On a
gate-closed block (`block_count % block_frequency ≠ 0`) the loop completes and
its batch is exactly the mined-updates of the included requests: the frequency
gate suppresses only the re-broadcast step. -/
theorem C4_inclusion_checked_every_block :
    (∀ (send : Eip1559TransactionRequest → SendResult) (bt : List Nat)
        (ef ep bc bf : Nat) (pending : List Request) (ups : List RequestUpdate)
        (r : Request),
      processRequests send bt ef ep bc bf pending = .ok ups →
      r ∈ pending → (bt.any fun t => t == r.hash) = true →
      (⟨r.id, true, r.hash⟩ : RequestUpdate) ∈ ups) ∧
    (∀ (send : Eip1559TransactionRequest → SendResult) (bt : List Nat)
        (ef ep bc bf : Nat) (pending : List Request),
      bf ≠ 0 → bc % bf ≠ 0 →
      processRequests send bt ef ep bc bf pending
        = .ok (((pending.filter fun r => bt.any fun t => t == r.hash).map
            fun r => ⟨r.id, true, r.hash⟩))) := by
  constructor
  · intro send bt ef ep bc bf pending
    induction pending with
    | nil => intro ups r _ hr _; simp at hr
    | cons p rest ih =>
      intro ups r h hr hincl
      rcases List.mem_cons.mp hr with rfl | hr'
      · rw [processRequests_cons, if_pos hincl] at h
        cases hrec : processRequests send bt ef ep bc bf rest with
        | error e => rw [hrec] at h; simp [Except.map] at h
        | ok ups' =>
          rw [hrec] at h
          simp only [Except.map, Except.ok.injEq] at h
          exact h ▸ List.mem_cons_self _ _
      · obtain ⟨ups', hrec, hcase⟩ := processRequests_cons_elim h
        rcases hcase with rfl | ⟨u, _, rfl⟩
        · exact ih _ r hrec hr' hincl
        · exact List.mem_cons_of_mem _ (ih _ r hrec hr' hincl)
  · intro send bt ef ep bc bf pending hbf hgate
    induction pending with
    | nil => rfl
    | cons p rest ih =>
      rw [processRequests_cons]
      by_cases h1 : (bt.any fun t => t == p.hash) = true
      case pos =>
        rw [if_pos h1, ih]
        simp [Except.map, List.filter_cons, h1]
      case neg =>
        have h1' : (bt.any fun t => t == p.hash) = false := Bool.eq_false_iff.mpr h1
        rw [if_neg h1, if_neg (by simpa using hbf), if_pos (by simpa using hgate), ih]
        simp [List.filter_cons, h1']

/-- C4, witness: one pending request with hash `5`, block body `[5]`, on a
gate-closed tick (`block_count = 1`, `block_frequency = 2`). -/
theorem C4_inclusion_checked_every_block_witness :
    (⟨1, true, 5⟩ : RequestUpdate)
        ∈ [(⟨1, true, 5⟩ : RequestUpdate)] ∧
    processRequests (fun _ => SendResult.err "x") [5] 50 5 1 2
        [⟨1, ⟨some 100, some 10, some 7⟩, 5, false, 1⟩]
      = .ok ((([⟨1, ⟨some 100, some 10, some 7⟩, 5, false, 1⟩] : List Request).filter
            fun r => [5].any fun t => t == r.hash).map
          fun r => ⟨r.id, true, r.hash⟩) :=
  ⟨C4_inclusion_checked_every_block.1 (fun _ => SendResult.err "x") [5] 50 5 1 2
      [⟨1, ⟨some 100, some 10, some 7⟩, 5, false, 1⟩] [⟨1, true, 5⟩]
      ⟨1, ⟨some 100, some 10, some 7⟩, 5, false, 1⟩ rfl (by simp) rfl,
   C4_inclusion_checked_every_block.2 (fun _ => SendResult.err "x") [5] 50 5 1 2
      [⟨1, ⟨some 100, some 10, some 7⟩, 5, false, 1⟩]
      (by norm_num) (by norm_num)⟩

/-- C7: a benign "nonce too low" broadcast failure on a pending request that
reaches the re-broadcast step appends `(id, mined = true)` with the hash left
at its pre-replacement value, swallows the error, and the loop goes on to
process the remaining pending requests. -/
theorem C7_nonce_too_low_marks_mined
    (send : Eip1559TransactionRequest → SendResult) (bt : List Nat)
    (ef ep bc bf : Nat) (r : Request) (rest : List Request) (msg : String)
    (hincl : (bt.any fun t => t == r.hash) = false)
    (hbf : bf ≠ 0) (hgate : bc % bf = 0)
    (hsend : send (bump_transaction r.tx ef ep) = .err msg)
    (hmsg : containsNonceTooLow msg = true) :
    processRequests send bt ef ep bc bf (r :: rest)
      = (processRequests send bt ef ep bc bf rest).map
          (fun ups => ⟨r.id, true, r.hash⟩ :: ups) := by
  have hrb : rebroadcast send r.tx ef ep = .ok (none, bump_transaction r.tx ef ep) := by
    simp [rebroadcast, hsend, hmsg]
  rw [processRequests_cons, if_neg (by simp [hincl]), if_neg (by simpa using hbf),
    if_neg (by simp [hgate]), hrb]

/-- C7, witness: a singleton pending list, empty block body,
`block_count = 2`, `block_frequency = 2`, the provider failing every broadcast
with exactly "nonce too low". -/
theorem C7_nonce_too_low_marks_mined_witness :
    processRequests (fun _ => SendResult.err "nonce too low") [] 50 5 2 2
        [⟨1, ⟨some 100, some 10, some 7⟩, 5, false, 1⟩]
      = (processRequests (fun _ => SendResult.err "nonce too low") [] 50 5 2 2 []).map
          (fun ups => ⟨1, true, 5⟩ :: ups) :=
  C7_nonce_too_low_marks_mined (fun _ => SendResult.err "nonce too low") [] 50 5 2 2
    ⟨1, ⟨some 100, some 10, some 7⟩, 5, false, 1⟩ [] "nonce too low"
    rfl (by norm_num) rfl rfl (by decide)

/-- A failing tick makes `monitor()` return that error, whatever blocks were
still queued: the `?` operators propagate out of the `while let` loop. -/
lemma monitorRun_cons_error {chain bf : Nat} {ev : BlockEvent}
    {evs : List BlockEvent} {bc : Nat} {db : Db} {e : LoopErr}
    (h : monitorTick ev chain ((bc + 1) % 256) bf db = .error e) :
    monitorRun chain bf (ev :: evs) bc db = .error e := by
  unfold monitorRun
  dsimp only
  rw [h]

/-- C3, counterexample.  The claim says a block-fetch failure aborts only the
current tick and the monitor processes the next delivered block.  Take one
pending request (hash `5`) and two delivered blocks: on the first the block
fetch fails, the second contains the transaction.  The implemented loop
returns `Err("connection reset")` at the first tick — the second block is
never processed and the request is never marked mined — whereas the loop the
spec describes (`monitorRunSpec`) would go on and mark it mined. -/
theorem C3_tick_error_counterexample :
    monitorRun 1 1
        [{ blockResult := .error "connection reset", feesResult := .ok (50, 5),
           pendingErr := none, send := fun _ => .err "x",
           execOk := fun _ => true, commitOk := true },
         { blockResult := .ok [5], feesResult := .ok (50, 5), pendingErr := none,
           send := fun _ => .err "x", execOk := fun _ => true, commitOk := true }]
        0 [⟨1, ⟨some 100, some 10, some 7⟩, 5, false, 1⟩]
      = .error (.rpc "connection reset") ∧
    monitorRunSpec 1 1
        [{ blockResult := .error "connection reset", feesResult := .ok (50, 5),
           pendingErr := none, send := fun _ => .err "x",
           execOk := fun _ => true, commitOk := true },
         { blockResult := .ok [5], feesResult := .ok (50, 5), pendingErr := none,
           send := fun _ => .err "x", execOk := fun _ => true, commitOk := true }]
        0 [⟨1, ⟨some 100, some 10, some 7⟩, 5, false, 1⟩]
      = [⟨1, ⟨some 100, some 10, some 7⟩, 5, true, 1⟩] :=
  ⟨rfl, rfl⟩

/-- C3, amended: any tick failure — block fetch, fee estimate, repository
read or write, or a non-benign broadcast error — aborts not just the tick but
the whole monitor loop: `monitor()` returns that very error and no later
delivered block is ever processed (the spawned task then unwraps it and
terminates).  Only the benign "nonce too low" broadcast failure is survived
inside a tick. -/
theorem C3_tick_error_aborts_loop (ev : BlockEvent) (evs : List BlockEvent)
    (chain bf bc : Nat) (db : Db) (e : LoopErr)
    (h : monitorTick ev chain ((bc + 1) % 256) bf db = .error e) :
    monitorRun chain bf (ev :: evs) bc db = .error e :=
  monitorRun_cons_error h

/-- C3, witness for the amended theorem: the failing first tick of the
counterexample, followed by one queued block that is never reached. -/
theorem C3_tick_error_aborts_loop_witness :
    monitorRun 1 1
        [{ blockResult := .error "connection reset", feesResult := .ok (50, 5),
           pendingErr := none, send := fun _ => .err "x",
           execOk := fun _ => true, commitOk := true },
         { blockResult := .ok [5], feesResult := .ok (50, 5), pendingErr := none,
           send := fun _ => .err "x", execOk := fun _ => true, commitOk := true }]
        0 [⟨1, ⟨some 100, some 10, some 7⟩, 5, false, 1⟩]
      = .error (.rpc "connection reset") :=
  C3_tick_error_aborts_loop
    { blockResult := .error "connection reset", feesResult := .ok (50, 5),
      pendingErr := none, send := fun _ => .err "x",
      execOk := fun _ => true, commitOk := true }
    [{ blockResult := .ok [5], feesResult := .ok (50, 5), pendingErr := none,
       send := fun _ => .err "x", execOk := fun _ => true, commitOk := true }]
    1 1 0 [⟨1, ⟨some 100, some 10, some 7⟩, 5, false, 1⟩]
    (.rpc "connection reset") rfl

/-- With a non-zero block frequency the per-request loop never raises the
division-by-zero panic. -/
lemma processRequests_no_panic {send : Eip1559TransactionRequest → SendResult}
    {bt : List Nat} {ef ep bc bf : Nat} (hbf : bf ≠ 0) :
    ∀ {pending : List Request},
      processRequests send bt ef ep bc bf pending ≠ .error .panicDivZero := by
  intro pending
  induction pending with
  | nil => simp [processRequests]
  | cons r rest ih =>
    rw [processRequests_cons]
    by_cases h1 : (bt.any fun t => t == r.hash) = true
    case pos =>
      rw [if_pos h1]
      cases hrec : processRequests send bt ef ep bc bf rest with
      | error e =>
        intro hcontra
        simp only [Except.map] at hcontra
        rw [Except.error.injEq] at hcontra
        exact ih (hcontra ▸ hrec)
      | ok ups' => simp [Except.map]
    rw [if_neg h1, if_neg (by simpa using hbf)]
    by_cases h3 : (bc % bf != 0) = true
    case pos => rw [if_pos h3]; exact ih
    rw [if_neg h3]
    cases hrb : rebroadcast send r.tx ef ep with
    | error msg => simp
    | ok pr =>
      obtain ⟨onh, tx'⟩ := pr
      cases onh with
      | some nh =>
        cases hrec : processRequests send bt ef ep bc bf rest with
        | error e =>
          intro hcontra
          simp only [Except.map] at hcontra
          rw [Except.error.injEq] at hcontra
          exact ih (hcontra ▸ hrec)
        | ok ups' => simp [Except.map]
      | none =>
        cases hrec : processRequests send bt ef ep bc bf rest with
        | error e =>
          intro hcontra
          simp only [Except.map] at hcontra
          rw [Except.error.injEq] at hcontra
          exact ih (hcontra ▸ hrec)
        | ok ups' => simp [Except.map]

/-- With `block_frequency = 0`, as soon as the loop reaches a pending request
that is not in the block body, the gate's `block_count % 0` divides by zero. -/
lemma processRequests_panic_of_unincluded {send : Eip1559TransactionRequest → SendResult}
    {bt : List Nat} {ef ep bc : Nat} :
    ∀ {pending : List Request},
      (∃ r ∈ pending, (bt.any fun t => t == r.hash) = false) →
      processRequests send bt ef ep bc 0 pending = .error .panicDivZero := by
  intro pending
  induction pending with
  | nil => rintro ⟨r, hr, _⟩; simp at hr
  | cons p rest ih =>
    rintro ⟨r, hr, hrincl⟩
    rw [processRequests_cons]
    by_cases h1 : (bt.any fun t => t == p.hash) = true
    case pos =>
      rw [if_pos h1]
      rcases List.mem_cons.mp hr with rfl | hr'
      · rw [h1] at hrincl; cases hrincl
      · rw [ih ⟨r, hr', hrincl⟩]; rfl
    rw [if_neg h1]
    simp

/-- A tick with a non-zero block frequency can fail, but never with the
division-by-zero panic. -/
lemma monitorTick_no_panic {ev : BlockEvent} {chain bc bf : Nat} {db : Db}
    (hbf : bf ≠ 0) :
    monitorTick ev chain bc bf db ≠ .error .panicDivZero := by
  unfold monitorTick
  cases ev.blockResult with
  | error m => simp
  | ok bt =>
    cases ev.feesResult with
    | error m => simp
    | ok fees =>
      obtain ⟨ef, ep⟩ := fees
      cases ev.pendingErr with
      | some m => simp
      | none =>
        simp only []
        cases hpr : processRequests ev.send bt ef ep bc bf (get_pending chain db) with
        | error e =>
          simp only []
          intro hcontra
          rw [Except.error.injEq] at hcontra
          exact processRequests_no_panic hbf (hcontra ▸ hpr)
        | ok ups =>
          rcases hrs : runStoreOps ev.execOk ev.commitOk (update_many_ops ups) ⟨db, none⟩
            with ⟨b, dbx⟩
          simp only []
          rw [hrs]
          cases b <;> simp

/-- C8, counterexample.  The claim asserts that with `block_frequency = 0` the
loop panics with a division by zero on the first delivered block.  But the
gate `block_count % block_frequency` sits inside the per-request loop, after
the inclusion check: on a monitor with `block_frequency = 0` and no pending
requests, the first delivered block is processed without any trap and the run
completes normally. -/
theorem C8_block_frequency_zero_counterexample :
    monitorRun 1 0
        [{ blockResult := .ok [], feesResult := .ok (50, 5), pendingErr := none,
           send := fun _ => .ok 99, execOk := fun _ => true, commitOk := true }]
        0 []
      = .ok [] := rfl

/-- C8, amended.  (a) For every `block_frequency ≥ 1` the gating computation
is well-defined: no tick can produce the division-by-zero panic.  (b) With
`block_frequency = 0` the loop panics on the first delivered block at which
some pending request is not found in the block body (the gate is evaluated
exactly for such requests). -/
theorem C8_gate_division_amended :
    (∀ (ev : BlockEvent) (chain bc bf : Nat) (db : Db), bf ≠ 0 →
      monitorTick ev chain bc bf db ≠ .error .panicDivZero) ∧
    (∀ (ev : BlockEvent) (evs : List BlockEvent) (chain : Nat) (db : Db)
        (bt : List Nat) (fees : Nat × Nat),
      ev.blockResult = .ok bt → ev.feesResult = .ok fees → ev.pendingErr = none →
      (∃ r ∈ get_pending chain db, (bt.any fun t => t == r.hash) = false) →
      monitorRun chain 0 (ev :: evs) 0 db = .error .panicDivZero) := by
  constructor
  · intro ev chain bc bf db hbf
    exact monitorTick_no_panic hbf
  · intro ev evs chain db bt fees hbt hfees hpe hex
    refine monitorRun_cons_error ?_
    unfold monitorTick
    rw [hbt, hfees, hpe]
    obtain ⟨ef, ep⟩ := fees
    simp only []
    rw [processRequests_panic_of_unincluded hex]

/-- C8, witness for the amended theorem: (a) the frequency-1 tick on an empty
table does not panic; (b) with frequency 0 and one pending request missing
from an empty block body, the first block panics. -/
theorem C8_gate_division_amended_witness :
    monitorTick
        { blockResult := .ok [], feesResult := .ok (50, 5), pendingErr := none,
          send := fun _ => .ok 99, execOk := fun _ => true, commitOk := true }
        1 1 1 [] ≠ .error .panicDivZero ∧
    monitorRun 1 0
        [{ blockResult := .ok [], feesResult := .ok (50, 5), pendingErr := none,
           send := fun _ => .ok 99, execOk := fun _ => true, commitOk := true }]
        0 [⟨1, ⟨some 100, some 10, some 7⟩, 5, false, 1⟩]
      = .error .panicDivZero :=
  ⟨C8_gate_division_amended.1
      { blockResult := .ok [], feesResult := .ok (50, 5), pendingErr := none,
        send := fun _ => .ok 99, execOk := fun _ => true, commitOk := true }
      1 1 1 [] (by norm_num),
   C8_gate_division_amended.2
      { blockResult := .ok [], feesResult := .ok (50, 5), pendingErr := none,
        send := fun _ => .ok 99, execOk := fun _ => true, commitOk := true }
      [] 1 [⟨1, ⟨some 100, some 10, some 7⟩, 5, false, 1⟩] [] (50, 5)
      rfl rfl rfl ⟨⟨1, ⟨some 100, some 10, some 7⟩, 5, false, 1⟩, by decide, rfl⟩⟩

/-- One unconvertible record poisons the whole list conversion. -/
lemma recordsToRequests_none {ps : RecordParsers} :
    ∀ {records : List RequestRecord} {record : RequestRecord},
      record ∈ records → requestFromRecord ps record = none →
      recordsToRequests ps records = none := by
  intro records
  induction records with
  | nil => intro record hmem _; simp at hmem
  | cons a rest ih =>
    intro record hmem hfail
    rcases List.mem_cons.mp hmem with rfl | hmem'
    · unfold recordsToRequests
      rw [hfail]
    · unfold recordsToRequests
      rw [ih hmem' hfail]
      cases requestFromRecord ps a <;> rfl

/-- C10: a fetched row whose `id`, `hash` or `chain` column fails to parse
makes `get`/`get_pending` panic (outer `none`) — never a store error — while
rows whose columns all parse are returned converted field by field:
(a) `get` panics when any of the three parsers fails on its column;
(b) `get` returns the field-by-field conversion when all three succeed;
(c) `get_pending` panics when any fetched record fails to convert;
(d) `get_pending` returns the record-by-record conversion when it succeeds. -/
theorem C10_row_parse_panics :
    (∀ (ps : RecordParsers) (record : RequestRecord),
      (ps.parseUuid record.id = none ∨ ps.parseTxHash record.hash = none ∨
        ps.parseChain record.chain = none) →
      dbGet ps (.ok (some record)) = none) ∧
    (∀ (ps : RecordParsers) (record : RequestRecord) (i h c : Nat),
      ps.parseUuid record.id = some i → ps.parseTxHash record.hash = some h →
      ps.parseChain record.chain = some c →
      dbGet ps (.ok (some record))
        = some (.ok (some ⟨i, record.tx, h, record.mined, c⟩))) ∧
    (∀ (ps : RecordParsers) (records : List RequestRecord) (record : RequestRecord),
      record ∈ records → requestFromRecord ps record = none →
      dbGetPending ps (.ok records) = none) ∧
    (∀ (ps : RecordParsers) (records : List RequestRecord) (rs : List Request),
      recordsToRequests ps records = some rs →
      dbGetPending ps (.ok records) = some (.ok rs)) := by
  refine ⟨?_, ?_, ?_, ?_⟩
  · intro ps record hfail
    unfold dbGet requestFromRecord
    cases hu : ps.parseUuid record.id <;> cases hh : ps.parseTxHash record.hash <;>
      cases hc : ps.parseChain record.chain <;> simp_all
  · intro ps record i h c hu hh hc
    unfold dbGet requestFromRecord
    simp only []
    rw [hu, hh, hc]
  · intro ps records record hmem hfail
    unfold dbGetPending
    simp only []
    rw [recordsToRequests_none hmem hfail]
  · intro ps records rs hconv
    unfold dbGetPending
    simp only []
    rw [hconv]

/-- C10, witness: a concrete record under a parser set whose uuid parser
rejects everything (clauses a, c) and one that accepts everything
(clauses b, d). -/
theorem C10_row_parse_panics_witness :
    dbGet ⟨fun _ => none, fun _ => some 2, fun n => some n⟩
        (.ok (some ⟨"id-0", ⟨some 1, some 2, none⟩, "0xabc", false, 7⟩)) = none ∧
    dbGet ⟨fun _ => some 1, fun _ => some 2, fun n => some n⟩
        (.ok (some ⟨"id-0", ⟨some 1, some 2, none⟩, "0xabc", false, 7⟩))
      = some (.ok (some ⟨1, ⟨some 1, some 2, none⟩, 2, false, 7⟩)) ∧
    dbGetPending ⟨fun _ => none, fun _ => some 2, fun n => some n⟩
        (.ok [⟨"id-0", ⟨some 1, some 2, none⟩, "0xabc", false, 7⟩]) = none ∧
    dbGetPending ⟨fun _ => some 1, fun _ => some 2, fun n => some n⟩
        (.ok [⟨"id-0", ⟨some 1, some 2, none⟩, "0xabc", false, 7⟩])
      = some (.ok [⟨1, ⟨some 1, some 2, none⟩, 2, false, 7⟩]) :=
  ⟨C10_row_parse_panics.1 ⟨fun _ => none, fun _ => some 2, fun n => some n⟩
      ⟨"id-0", ⟨some 1, some 2, none⟩, "0xabc", false, 7⟩ (Or.inl rfl),
   C10_row_parse_panics.2.1 ⟨fun _ => some 1, fun _ => some 2, fun n => some n⟩
      ⟨"id-0", ⟨some 1, some 2, none⟩, "0xabc", false, 7⟩ 1 2 7 rfl rfl rfl,
   C10_row_parse_panics.2.2.1 ⟨fun _ => none, fun _ => some 2, fun n => some n⟩
      [⟨"id-0", ⟨some 1, some 2, none⟩, "0xabc", false, 7⟩]
      ⟨"id-0", ⟨some 1, some 2, none⟩, "0xabc", false, 7⟩ (by simp) rfl,
   C10_row_parse_panics.2.2.2 ⟨fun _ => some 1, fun _ => some 2, fun n => some n⟩
      [⟨"id-0", ⟨some 1, some 2, none⟩, "0xabc", false, 7⟩]
      [⟨1, ⟨some 1, some 2, none⟩, 2, false, 7⟩] rfl⟩

end Relay
